import Mathlib

/-!
Verification of the nested JSON-Schema generator
(`scripts/gen_hot_schema.py`).

The script builds, in memory, a JSON document: a fixed envelope with
`$defs` entries `Leaf` and `Alt`, and `width` properties named
`p1`, `p2`, ... whose values are nesting structures of depth `depth`
produced by `nested_block`.  We embed the JSON values the script
constructs as an inductive `Json` type (objects keep the insertion
order of Python dicts as an association list) and translate each Python
function into a Lean definition.
-/

/-- JSON values, as assembled by the Python script.  Objects are
association lists in insertion order, mirroring Python dicts. -/
inductive Json where
  | null : Json
  | bool : Bool → Json
  | num : Int → Json
  | str : String → Json
  | arr : List Json → Json
  | obj : List (String × Json) → Json

namespace Json

/-- Key lookup in a JSON object (first binding wins, as in a dict). -/
def get (j : Json) (k : String) : Option Json :=
  match j with
  | .obj kvs => kvs.lookup k
  | _ => none

end Json

/-- Little-endian decimal digit characters of `n`, computed with the
explicit fuel `fuel` so that the recursion is structural (the kernel
can evaluate it).  `natToDecAux fuel n` is correct whenever
`n ≤ fuel`. -/
def natToDecAux : Nat → Nat → List Char
  | 0, _ => []
  | fuel + 1, n =>
    if n = 0 then []
    else Nat.digitChar (n % 10) :: natToDecAux fuel (n / 10)

/-- Decimal rendering of a natural number, matching what string
interpolation of a nonnegative Python `int` produces (used for the
interpolations making the property names and discriminant
constants). -/
def natToDec (n : Nat) : String :=
  if n = 0 then "0"
  else String.mk (natToDecAux n n).reverse

/-- The node `$ref: #/$defs/Leaf` — the innermost `then` target
(line 17 of the script). -/
def leafRef : Json := .obj [("$ref", .str "#/$defs/Leaf")]

/-- The node `$ref: #/$defs/Alt` — every `else` branch
(line 28 of the script). -/
def altRef : Json := .obj [("$ref", .str "#/$defs/Alt")]

/-- One iteration of the loop body of `nested_block` (lines 19–31):
wrap the current node as the `then` branch of a fresh
`allOf`/`if`/`then`/`else` layer whose discriminant constant is
`name + "_K" + lvl`. -/
def wrapLevel (name : String) (lvl : Nat) (node : Json) : Json :=
  .obj [("allOf", .arr [
    .obj [("type", .str "object")],
    .obj [
      ("if", .obj [
        ("required", .arr [.str "kind"]),
        ("properties", .obj [("kind", .obj [("const", .str (name ++ "_K" ++ natToDec lvl))])])]),
      ("then", node),
      ("else", altRef)]])]

/-- Loop `for lvl in range(1, depth + 1)` of `nested_block`,
with the mutable local `node` made an explicit accumulator. -/
def nestedLoop (name : String) : List Nat → Json → Json
  | [], node => node
  | lvl :: rest, node => nestedLoop name rest (wrapLevel name lvl node)

/-- Function `nested_block(name, depth)` (lines 10–32).  In Python,
`range(1, depth + 1)` is empty whenever `depth ≤ 0`, which
`Int.toNat` reproduces. -/
def nested_block (name : String) (depth : Int) : Json :=
  nestedLoop name (List.range' 1 depth.toNat) leafRef

/-- The fixed `$defs.Leaf` schema (lines 38–43). -/
def leafDef : Json := .obj [
  ("type", .str "object"),
  ("properties", .obj [("x", .obj [("type", .str "integer")])]),
  ("required", .arr [.str "x"]),
  ("additionalProperties", .bool false)]

/-- The fixed `$defs.Alt` schema (lines 44–48).  Note the script
gives `Alt` `"additionalProperties": False`, exactly like `Leaf`. -/
def altDef : Json := .obj [
  ("type", .str "object"),
  ("properties", .obj [("y", .obj [("type", .str "string")])]),
  ("additionalProperties", .bool false)]

/-- The fixed `$defs` map (lines 37–49). -/
def defsObj : Json := .obj [("Leaf", leafDef), ("Alt", altDef)]

/-- The generated property name, interpolated from the index as in
line 56 of the script. -/
def pname (i : Nat) : String := "p" ++ natToDec i

/-- The property bindings produced by the loop on lines 55–57, in
insertion order. -/
def propsList (width depth : Int) : List (String × Json) :=
  (List.range' 1 width.toNat).map fun i => (pname i, nested_block (pname i) depth)

/-- The assembled schema document (lines 34–57): the fixed envelope
with the `properties` dict filled by the loop. -/
def assemble (width depth : Int) : Json := .obj [
  ("$schema", .str "https://json-schema.org/draft/2020-12/schema"),
  ("$id", .str "https://example.com/hot_nested"),
  ("$defs", defsObj),
  ("type", .str "object"),
  ("properties", .obj (propsList width depth)),
  ("additionalProperties", .bool false)]

/-- Recognise one `allOf`/conditional layer as produced by the loop
body: return the discriminant constant together with the `then`
branch, or `none` if the node does not have that shape. -/
def peel : Json → Option (String × Json)
  | .obj [("allOf", .arr [.obj [("type", .str "object")],
      .obj [("if", .obj [("required", .arr [.str "kind"]),
        ("properties", .obj [("kind", .obj [("const", .str c)])])]),
      ("then", t), ("else", .obj [("$ref", .str "#/$defs/Alt")])]])] => some (c, t)
  | _ => none

/-- The discriminant constants of the conditional layers of a tree,
outermost first, peeling at most `fuel` layers. -/
def discrChain : Nat → Json → List String
  | 0, _ => []
  | fuel + 1, j =>
    match peel j with
    | some (c, t) => c :: discrChain fuel t
    | none => []

/-- The node remaining after stripping `fuel` conditional layers. -/
def stripLayers : Nat → Json → Json
  | 0, j => j
  | fuel + 1, j =>
    match peel j with
    | some (_, t) => stripLayers fuel t
    | none => j

/-- Does this node equal the `Alt` reference node `$ref: #/$defs/Alt`? -/
def isAltRef : Json → Bool
  | .obj [("$ref", .str s)] => s == "#/$defs/Alt"
  | _ => false

/-- Every binding under the key `"else"` anywhere in the tree is
exactly the `Alt` reference. -/
def elseOk : Json → Bool
  | .arr [] => true
  | .arr (x :: xs) => elseOk x && elseOk (.arr xs)
  | .obj [] => true
  | .obj ((k, v) :: kvs) => (k != "else" || isAltRef v) && elseOk v && elseOk (.obj kvs)
  | _ => true

/-- Modelled from the spec: the construction of section 4.1 described
as "a pure left-fold over the level range 1..depth that starts from
the Leaf reference"; at each level the fold wraps the accumulated
node in the layer described by the spec (an `allOf` of a plain
object constraint and a conditional testing `kind` against the
constant of the level, with the accumulated node as `then` and the `Alt`
reference as `else` — the same layer `wrapLevel` builds). -/
def nested_block_fold (name : String) (depth : Int) : Json :=
  List.foldl (fun node lvl => wrapLevel name lvl node) leafRef (List.range' 1 depth.toNat)

/-! ### Basic lemmas about the construction -/

theorem range1_concat (n : Nat) : List.range' 1 (n + 1) = List.range' 1 n ++ [n + 1] := by
  have h := @List.range'_concat 1 1 n
  simpa [Nat.one_mul, Nat.add_comm] using h

theorem nestedLoop_append (name : String) (l l' : List Nat) (init : Json) :
    nestedLoop name (l ++ l') init = nestedLoop name l' (nestedLoop name l init) := by
  induction l generalizing init with
  | nil => rfl
  | cons x xs ih => simp [nestedLoop, ih]

theorem nested_block_ofNat (name : String) (d : Nat) :
    nested_block name (Int.ofNat d) = nestedLoop name (List.range' 1 d) leafRef := by
  simp [nested_block]

theorem nested_block_succ (name : String) (d : Nat) :
    nested_block name (Int.ofNat (d + 1)) = wrapLevel name (d + 1) (nested_block name (Int.ofNat d)) := by
  rw [nested_block_ofNat, nested_block_ofNat, range1_concat, nestedLoop_append]
  rfl

theorem peel_wrapLevel (name : String) (lvl : Nat) (node : Json) :
    peel (wrapLevel name lvl node) = some (name ++ "_K" ++ natToDec lvl, node) := rfl

theorem discrChain_nested_block (name : String) (d : Nat) :
    discrChain d (nested_block name (Int.ofNat d)) =
      ((List.range' 1 d).map fun lvl => name ++ "_K" ++ natToDec lvl).reverse := by
  induction d with
  | zero => rfl
  | succ d ih =>
    rw [nested_block_succ, range1_concat, discrChain, peel_wrapLevel]
    simpa using ih

theorem stripLayers_nested_block (name : String) (d : Nat) :
    stripLayers d (nested_block name (Int.ofNat d)) = leafRef := by
  induction d with
  | zero => rfl
  | succ d ih =>
    rw [nested_block_succ, stripLayers, peel_wrapLevel]
    exact ih

theorem elseOk_wrapLevel (name : String) (lvl : Nat) (node : Json) :
    elseOk (wrapLevel name lvl node) = elseOk node := by
  simp [wrapLevel, elseOk, isAltRef, altRef]

theorem elseOk_nestedLoop (name : String) (lvls : List Nat) (init : Json)
    (h : elseOk init = true) : elseOk (nestedLoop name lvls init) = true := by
  induction lvls generalizing init with
  | nil => exact h
  | cons x xs ih => exact ih _ (by rw [elseOk_wrapLevel]; exact h)

theorem isAltRef_iff (j : Json) : isAltRef j = true ↔ j = altRef := by
  unfold isAltRef
  split
  · rename_i s
    constructor
    · intro h
      simp only [beq_iff_eq] at h
      rw [h]; rfl
    · intro h
      cases h
      rfl
  · rename_i hne
    constructor
    · intro h
      exact absurd h (by simp)
    · intro h
      cases h
      exact absurd rfl (hne "#/$defs/Alt")

theorem nestedLoop_eq_foldl (name : String) (l : List Nat) (init : Json) :
    nestedLoop name l init = List.foldl (fun node lvl => wrapLevel name lvl node) init l := by
  induction l generalizing init with
  | nil => rfl
  | cons x xs ih => simp [nestedLoop, List.foldl, ih]

/-! ### Decimal rendering: correctness and injectivity on positives -/

theorem natToDecAux_eq (fuel n : Nat) (h : n ≤ fuel) :
    natToDecAux fuel n = (Nat.digits 10 n).map Nat.digitChar := by
  induction fuel generalizing n with
  | zero =>
    have hn : n = 0 := Nat.le_zero.mp h
    subst hn
    simp [natToDecAux]
  | succ fuel ih =>
    by_cases hn : n = 0
    · subst hn
      simp [natToDecAux]
    · have hpos : 0 < n := Nat.pos_of_ne_zero hn
      rw [natToDecAux, if_neg hn, Nat.digits_def' (by norm_num : (1:Nat) < 10) hpos]
      have hdiv : n / 10 ≤ fuel :=
        Nat.lt_succ_iff.mp (Nat.lt_of_lt_of_le (Nat.div_lt_self hpos (by norm_num)) h)
      rw [List.map_cons, ih _ hdiv]

theorem digitChar_inj_lt : ∀ d < 10, ∀ e < 10, Nat.digitChar d = Nat.digitChar e → d = e := by
  decide

theorem map_digitChar_inj :
    ∀ xs ys : List Nat, (∀ d ∈ xs, d < 10) → (∀ d ∈ ys, d < 10) →
      xs.map Nat.digitChar = ys.map Nat.digitChar → xs = ys
  | [], [], _, _, _ => rfl
  | [], _ :: _, _, _, h => by simp at h
  | _ :: _, [], _, _, h => by simp at h
  | x :: xs, y :: ys, hx, hy, h => by
    simp only [List.map_cons, List.cons.injEq] at h
    have hxy : x = y :=
      digitChar_inj_lt x (hx x (List.mem_cons_self x xs)) y (hy y (List.mem_cons_self y ys)) h.1
    have : xs = ys :=
      map_digitChar_inj xs ys (fun d hd => hx d (List.mem_cons_of_mem x hd))
        (fun d hd => hy d (List.mem_cons_of_mem y hd)) h.2
    rw [hxy, this]

theorem natToDec_inj_pos (m n : Nat) (hm : 0 < m) (hn : 0 < n)
    (h : natToDec m = natToDec n) : m = n := by
  unfold natToDec at h
  rw [if_neg (Nat.pos_iff_ne_zero.mp hm), if_neg (Nat.pos_iff_ne_zero.mp hn)] at h
  rw [natToDecAux_eq m m (Nat.le_refl m), natToDecAux_eq n n (Nat.le_refl n)] at h
  injection h with h
  have h' := List.reverse_injective h
  exact Nat.digits.injective 10
    (map_digitChar_inj _ _ (fun d hd => Nat.digits_lt_base (by norm_num) hd)
      (fun d hd => Nat.digits_lt_base (by norm_num) hd) h')

theorem pname_inj_pos (i j : Nat) (hi : 0 < i) (hj : 0 < j) (h : pname i = pname j) : i = j := by
  unfold pname at h
  have hdata := congrArg String.data h
  rw [String.data_append, String.data_append] at hdata
  have : (natToDec i).data = (natToDec j).data := List.append_cancel_left hdata
  exact natToDec_inj_pos i j hi hj (String.ext this)

theorem nested_block_nonpos (name : String) (depth : Int) (h : depth ≤ 0) :
    nested_block name depth = leafRef := by
  unfold nested_block
  rw [Int.toNat_of_nonpos h]
  rfl

theorem propsList_nonpos (width d : Int) (h : width ≤ 0) : propsList width d = [] := by
  unfold propsList
  rw [Int.toNat_of_nonpos h]
  rfl

theorem propsList_keys (width depth : Int) :
    (propsList width depth).map Prod.fst = (List.range' 1 width.toNat).map pname := by
  simp [propsList]

theorem assemble_props (width depth : Int) :
    (assemble width depth).get "properties" = some (.obj (propsList width depth)) := rfl

theorem stripLayers_add (name : String) (k j : Nat) :
    stripLayers j (nested_block name (Int.ofNat (k + j))) = nested_block name (Int.ofNat k) := by
  induction j with
  | zero => rfl
  | succ j ih =>
    rw [show k + (j + 1) = (k + j) + 1 from rfl, nested_block_succ, stripLayers, peel_wrapLevel]
    exact ih


/-! ### Claim theorems -/

/-- C1 counterexample: in the assembled document (here at width 1,
depth 1) the `Alt` definition carries an explicit
`"additionalProperties": false` restriction, so it does not allow
additional properties. -/
theorem alt_counterexample :
    (assemble 1 1).get "$defs" = some defsObj ∧
    defsObj.get "Alt" = some altDef ∧
    altDef.get "additionalProperties" = some (.bool false) ∧
    altDef.get "additionalProperties" ≠ none := by
  refine ⟨rfl, rfl, rfl, fun h => Option.noConfusion h⟩

/-- C1 (amended): the `Alt` definition in the `$defs` section of the
assembled document is an object type with one property `y` of string type and no
`required` list, but it does **not** allow additional properties: it
carries `"additionalProperties": false`, exactly like `Leaf`, for
every width and depth. -/
theorem alt_def_shape (width depth : Int) :
    (assemble width depth).get "$defs" = some defsObj ∧
    defsObj.get "Alt" = some altDef ∧
    altDef = .obj [("type", .str "object"),
      ("properties", .obj [("y", .obj [("type", .str "string")])]),
      ("additionalProperties", .bool false)] ∧
    altDef.get "required" = none ∧
    altDef.get "additionalProperties" = some (.bool false) :=
  ⟨rfl, rfl, rfl, rfl, rfl⟩

/-- C2 counterexample: at name `p1` and depth 2 the discriminant
chain, outermost first, is `[p1_K2, p1_K1]`.  The indexing of the claim
(the layer at distance `depth - lvl + 1` from the innermost leaf
carries `K lvl`, so the innermost layer would carry `K2` and the
outermost `K1`) would give the chain `[p1_K1, p1_K2]`, which the
built tree does not have. -/
theorem discr_order_counterexample :
    discrChain 2 (nested_block "p1" 2) = ["p1_K2", "p1_K1"] ∧
    discrChain 2 (nested_block "p1" 2) ≠ ["p1_K1", "p1_K2"] :=
  ⟨rfl, by decide⟩

/-- C2 (amended): for every name and every depth = d + 1 ≥ 1, the
tree has exactly `depth` conditional layers over the innermost `Leaf`
reference, and the layer at distance `lvl` from the innermost leaf
carries the discriminant constant `name_K lvl` — that is, the chain
of constants read from the outermost layer inward is
`[name_K depth, ..., name_K 1]`, the reverse of the map over levels
1..depth. -/
theorem discr_layers (name : String) (d : Nat) :
    (discrChain (d + 1) (nested_block name (Int.ofNat (d + 1)))).length = d + 1 ∧
    stripLayers (d + 1) (nested_block name (Int.ofNat (d + 1))) = leafRef ∧
    discrChain (d + 1) (nested_block name (Int.ofNat (d + 1))) =
      ((List.range' 1 (d + 1)).map fun lvl => name ++ "_K" ++ natToDec lvl).reverse := by
  refine ⟨?_, stripLayers_nested_block name (d + 1), discrChain_nested_block name (d + 1)⟩
  rw [discrChain_nested_block]
  simp

/-- C3: the nesting grows outward.  For every name and depth
`d + 1 ≥ 1`, the outermost wrapper is the conditional with
discriminant index `d + 1`, the innermost conditional (after
stripping the outer `d` layers) is the one with index 1 directly
wrapping the `Leaf` reference, and at width 2, depth 2 the `p1`/`p2` properties of the
assembled document are exactly the trees described by the concrete
scenario of the spec. -/
theorem nesting_grows_outward (name : String) (d : Nat) :
    nested_block name (Int.ofNat (d + 1)) =
      wrapLevel name (d + 1) (nested_block name (Int.ofNat d)) ∧
    stripLayers d (nested_block name (Int.ofNat (d + 1))) = wrapLevel name 1 leafRef ∧
    (assemble 2 2).get "properties" = some (.obj [
      ("p1", .obj [("allOf", .arr [
        .obj [("type", .str "object")],
        .obj [
          ("if", .obj [("required", .arr [.str "kind"]),
            ("properties", .obj [("kind", .obj [("const", .str "p1_K2")])])]),
          ("then", .obj [("allOf", .arr [
            .obj [("type", .str "object")],
            .obj [
              ("if", .obj [("required", .arr [.str "kind"]),
                ("properties", .obj [("kind", .obj [("const", .str "p1_K1")])])]),
              ("then", .obj [("$ref", .str "#/$defs/Leaf")]),
              ("else", .obj [("$ref", .str "#/$defs/Alt")])]])]),
          ("else", .obj [("$ref", .str "#/$defs/Alt")])]])]),
      ("p2", .obj [("allOf", .arr [
        .obj [("type", .str "object")],
        .obj [
          ("if", .obj [("required", .arr [.str "kind"]),
            ("properties", .obj [("kind", .obj [("const", .str "p2_K2")])])]),
          ("then", .obj [("allOf", .arr [
            .obj [("type", .str "object")],
            .obj [
              ("if", .obj [("required", .arr [.str "kind"]),
                ("properties", .obj [("kind", .obj [("const", .str "p2_K1")])])]),
              ("then", .obj [("$ref", .str "#/$defs/Leaf")]),
              ("else", .obj [("$ref", .str "#/$defs/Alt")])]])]),
          ("else", .obj [("$ref", .str "#/$defs/Alt")])]])])]) := by
  refine ⟨nested_block_succ name d, ?_, rfl⟩
  have h := stripLayers_add name 1 d
  rw [Nat.add_comm 1 d] at h
  rw [h]
  rfl

/-- C4 counterexample: with a negative depth the core does not fail —
`nested_block` returns the `Leaf` reference tree, and with a negative
width `assemble` returns a document with an empty `properties` map,
so construction proceeds and a tree is produced. -/
theorem negative_not_rejected_counterexample :
    nested_block "p1" (-1) = leafRef ∧
    (assemble (-1) 3).get "properties" = some (.obj []) :=
  ⟨rfl, rfl⟩

/-- C4 (amended): when depth (or width) is negative, the core does
not reject the input and raises no error: `nested_block` returns the
`Leaf` reference (the depth-0 result) and the `properties` map of the
document is left empty. -/
theorem negative_inputs_silently_clamped (name : String) (depth width d : Int)
    (hd : depth < 0) (hw : width < 0) :
    nested_block name depth = leafRef ∧
    (assemble width d).get "properties" = some (.obj []) := by
  refine ⟨nested_block_nonpos name depth hd.le, ?_⟩
  rw [assemble_props, propsList_nonpos width d hw.le]

/-- C4 witness: the amended theorem applied at depth −2, width −3. -/
theorem negative_inputs_silently_clamped_witness :
    (-2 : Int) < 0 ∧ (-3 : Int) < 0 ∧
    (nested_block "p1" (-2) = leafRef ∧
      (assemble (-3) 4).get "properties" = some (.obj [])) :=
  ⟨by decide, by decide,
    negative_inputs_silently_clamped "p1" (-2) (-3) 4 (by decide) (by decide)⟩

/-- C5: for every non-empty name, `nested_block name 0` is exactly
the `$ref` node pointing at the `Leaf` definition, with no `allOf` or
conditional wrapping (`range(1, 1)` is empty, so the loop never
runs). -/
theorem build_zero (name : String) (h : name ≠ "") : nested_block name 0 = leafRef := rfl

/-- C5 witness: the theorem applied at the concrete name `p1`. -/
theorem build_zero_witness : ("p1" : String) ≠ "" ∧ nested_block "p1" 0 = leafRef :=
  ⟨by decide, build_zero "p1" (by decide)⟩

/-- C6: in every tree produced by the builder — for every property
name and every depth — every binding under an `"else"` key is exactly
the `Alt` reference (`isAltRef j = true` holds precisely when `j` is
the `Alt` reference node, which is a bare `$ref`, never a nested
conditional or any deeper structure). -/
theorem else_always_alt (name : String) (depth : Int) :
    elseOk (nested_block name depth) = true ∧
    ∀ j : Json, isAltRef j = true ↔ j = altRef :=
  ⟨elseOk_nestedLoop name _ _ (by simp [elseOk, leafRef, isAltRef]), isAltRef_iff⟩

/-- C7: for every width ≥ 0 and every depth, the `properties` map of
the assembled document has exactly `width` bindings, whose keys are
`p1` through `p width` in order and are pairwise distinct. -/
theorem properties_keys (width depth : Int) (h : 0 ≤ width) :
    (assemble width depth).get "properties" = some (.obj (propsList width depth)) ∧
    (propsList width depth).map Prod.fst = (List.range' 1 width.toNat).map pname ∧
    ((propsList width depth).length : Int) = width ∧
    ((propsList width depth).map Prod.fst).Nodup := by
  refine ⟨assemble_props width depth, propsList_keys width depth, ?_, ?_⟩
  · have hl : (propsList width depth).length = width.toNat := by simp [propsList]
    rw [hl]
    exact Int.toNat_of_nonneg h
  · rw [propsList_keys]
    refine (List.nodup_range' 1 width.toNat).map_on ?_
    intro x hx y hy hxy
    exact pname_inj_pos x y (List.mem_range'_1.mp hx).1 (List.mem_range'_1.mp hy).1 hxy

/-- C7 witness: the theorem applied at width 3, depth 1. -/
theorem properties_keys_witness :
    (0 : Int) ≤ 3 ∧
    ((assemble 3 1).get "properties" = some (.obj (propsList 3 1)) ∧
      (propsList 3 1).map Prod.fst = (List.range' 1 (3 : Int).toNat).map pname ∧
      ((propsList 3 1).length : Int) = 3 ∧
      ((propsList 3 1).map Prod.fst).Nodup) :=
  ⟨by decide, properties_keys 3 1 (by decide)⟩

/-- C8: assembly is deterministic — two calls of `assemble` with
identical width and depth arguments yield structurally identical
documents (the construction is a pure function of its inputs). -/
theorem assemble_deterministic (w1 d1 w2 d2 : Int) (hw : w1 = w2) (hd : d1 = d2) :
    assemble w1 d1 = assemble w2 d2 := by
  rw [hw, hd]

/-- C8 witness: the theorem applied at width 2, depth 3. -/
theorem assemble_deterministic_witness :
    (2 : Int) = 2 ∧ (3 : Int) = 3 ∧ assemble 2 3 = assemble 2 3 :=
  ⟨rfl, rfl, assemble_deterministic 2 3 2 3 rfl rfl⟩

/-- C9: the imperative accumulator loop of the source
(`nestedLoop`, the explicit-state rendering of the mutated local `node` of the script) computes, for every name and every depth ≥ 0, exactly
the pure left-fold over the level range 1..depth starting from the
`Leaf` reference described by the spec (`nested_block_fold`). -/
theorem nested_block_refines_fold (name : String) (depth : Int) (h : 0 ≤ depth) :
    nested_block name depth = nested_block_fold name depth :=
  nestedLoop_eq_foldl name (List.range' 1 depth.toNat) leafRef

/-- C9 witness: the theorem applied at name `p1`, depth 2. -/
theorem nested_block_refines_fold_witness :
    (0 : Int) ≤ 2 ∧ nested_block "p1" 2 = nested_block_fold "p1" 2 :=
  ⟨by decide, nested_block_refines_fold "p1" 2 (by decide)⟩

/-- C10: for every name and every negative depth, `nested_block`
raises no error and returns exactly the `Leaf` reference — the same
result as at depth 0 — and a negative width leaves the `properties` map of the
document empty without error (in Python, `range(1, n + 1)` is
empty for `n ≤ 0`). -/
theorem negative_depth_width_behavior (name : String) (depth width d : Int)
    (hd : depth < 0) (hw : width < 0) :
    nested_block name depth = nested_block name 0 ∧
    nested_block name depth = leafRef ∧
    (assemble width d).get "properties" = some (.obj []) := by
  refine ⟨?_, nested_block_nonpos name depth hd.le, ?_⟩
  · rw [nested_block_nonpos name depth hd.le]
    rfl
  · rw [assemble_props, propsList_nonpos width d hw.le]

/-- C10 witness: the theorem applied at depth −7, width −1. -/
theorem negative_depth_width_behavior_witness :
    (-7 : Int) < 0 ∧ (-1 : Int) < 0 ∧
    (nested_block "q" (-7) = nested_block "q" 0 ∧
      nested_block "q" (-7) = leafRef ∧
      (assemble (-1) 5).get "properties" = some (.obj [])) :=
  ⟨by decide, by decide,
    negative_depth_width_behavior "q" (-7) (-1) 5 (by decide) (by decide)⟩
